import Mathlib

/-!
Verification of the core DKL/MI computation of `pipeline/utils/dkl.py`
(functions `calculate_dkl` and `get_mutual_info`).

The embedding models a pandas DataFrame as a `List` of rows.  Counts are
embedded as real numbers (the Python code casts the integer columns to
float before any arithmetic; the exact-real model makes every quantity a
well-defined real number, so IEEE-754 NaN/Inf cannot occur — the masking
rules `np.where(denominator > 0, ..., 0)` are modelled by `if` guards).
`np.log2` is `Real.logb 2`; the `np.where(np.isfinite(log), log, 0)`
post-filter is the identity in the exact-real model because `Real.logb`
of a positive real is always a real number.
-/

namespace Dkl

/-- One input row of `calculate_dkl` (schema of the module docstring of
`dkl.py`): one (block group, census variable) observation.  The Python
column `variable` is spelled `variable_` because `variable` is a Lean
keyword. -/
structure Row where
  block_fips : String
  county_fips : String
  cbsa_fips : String
  variable_ : String
  variable_group : String
  label : String
  group_label : String
  block_estimate : ℝ
  block_total : ℝ
  cbsa_estimate : ℝ
  cbsa_total : ℝ

/-- One output row of `calculate_dkl`: the input row plus the ten columns
appended by the function (four probabilities, two logs, two per-row
contributions, and the two broadcast aggregates). -/
structure OutRow extends Row where
  p_ni : ℝ
  p_ni_yj : ℝ
  p_yj : ℝ
  p_yj_ni : ℝ
  dkl_log_i : ℝ
  dkl_log_j : ℝ
  dkl_block_j : ℝ
  dkl_bin_i : ℝ
  dkl_block : ℝ
  dkl_bin : ℝ

/-- `out["p_ni"] = np.where(cbsa_total > 0, block_total / cbsa_total, 0.0)`. -/
noncomputable def p_ni (r : Row) : ℝ :=
  if r.cbsa_total > 0 then r.block_total / r.cbsa_total else 0

/-- `out["p_ni_yj"] = np.where(cbsa_estimate > 0, block_estimate / cbsa_estimate, 0.0)`. -/
noncomputable def p_ni_yj (r : Row) : ℝ :=
  if r.cbsa_estimate > 0 then r.block_estimate / r.cbsa_estimate else 0

/-- `out["p_yj"] = np.where(cbsa_total > 0, cbsa_estimate / cbsa_total, 0.0)`. -/
noncomputable def p_yj (r : Row) : ℝ :=
  if r.cbsa_total > 0 then r.cbsa_estimate / r.cbsa_total else 0

/-- `out["p_yj_ni"] = np.where(block_total > 0, block_estimate / block_total, 0.0)`. -/
noncomputable def p_yj_ni (r : Row) : ℝ :=
  if r.block_total > 0 then r.block_estimate / r.block_total else 0

/-- The masked ratio `np.where(q > 0, p / q, 0.0)` shared by both log ratios. -/
noncomputable def maskedRatio (p q : ℝ) : ℝ :=
  if q > 0 then p / q else 0

/-- The masked logarithm
`np.log2(ratio, where=(ratio > 0), out=zeros)` followed by
`np.where(np.isfinite(log), log, 0.0)`; in the exact-real model the
finiteness filter is the identity on the guarded branch. -/
noncomputable def maskedLog (p q : ℝ) : ℝ :=
  if maskedRatio p q > 0 then Real.logb 2 (maskedRatio p q) else 0

/-- `ratio_i = np.where(p_yj > 0, p_yj_ni / p_yj, 0.0)`. -/
noncomputable def ratio_i (r : Row) : ℝ := maskedRatio (p_yj_ni r) (p_yj r)

/-- `ratio_j = np.where(p_ni > 0, p_ni_yj / p_ni, 0.0)`. -/
noncomputable def ratio_j (r : Row) : ℝ := maskedRatio (p_ni_yj r) (p_ni r)

/-- `out["dkl_log_i"]`: log2 of `ratio_i`, 0 where the ratio is not positive. -/
noncomputable def dkl_log_i (r : Row) : ℝ := maskedLog (p_yj_ni r) (p_yj r)

/-- `out["dkl_log_j"]`: log2 of `ratio_j`, 0 where the ratio is not positive. -/
noncomputable def dkl_log_j (r : Row) : ℝ := maskedLog (p_ni_yj r) (p_ni r)

/-- `out["dkl_block_j"] = out["p_yj_ni"] * out["dkl_log_i"]`. -/
noncomputable def dkl_block_j (r : Row) : ℝ := p_yj_ni r * dkl_log_i r

/-- `out["dkl_bin_i"] = out["p_ni_yj"] * out["dkl_log_j"]`. -/
noncomputable def dkl_bin_i (r : Row) : ℝ := p_ni_yj r * dkl_log_j r

/-- The grouping key of `out.groupby(["variable_group", "block_fips"])`. -/
def blockKey (r : Row) : String × String := (r.variable_group, r.block_fips)

/-- The grouping key of `out.groupby(["variable_group", "cbsa_fips", "variable"])`. -/
def binKey (r : Row) : String × String × String :=
  (r.variable_group, r.cbsa_fips, r.variable_)

/-- `out["dkl_block"] = out.groupby(["variable_group", "block_fips"])["dkl_block_j"].transform("sum")`:
the sum of `dkl_block_j` over all rows of the table sharing the row's block key. -/
noncomputable def dkl_block (df : List Row) (r : Row) : ℝ :=
  ((df.filter fun s => decide (blockKey s = blockKey r)).map dkl_block_j).sum

/-- `out["dkl_bin"] = out.groupby(["variable_group", "cbsa_fips", "variable"])["dkl_bin_i"].transform("sum")`. -/
noncomputable def dkl_bin (df : List Row) (r : Row) : ℝ :=
  ((df.filter fun s => decide (binKey s = binKey r)).map dkl_bin_i).sum

/-- The ten columns appended to one row by `calculate_dkl`; the broadcast
aggregates `dkl_block` and `dkl_bin` depend on the whole table `df`. -/
noncomputable def augmentRow (df : List Row) (r : Row) : OutRow :=
  { r with
    p_ni := p_ni r
    p_ni_yj := p_ni_yj r
    p_yj := p_yj r
    p_yj_ni := p_yj_ni r
    dkl_log_i := dkl_log_i r
    dkl_log_j := dkl_log_j r
    dkl_block_j := dkl_block_j r
    dkl_bin_i := dkl_bin_i r
    dkl_block := dkl_block df r
    dkl_bin := dkl_bin df r }

/-- `calculate_dkl`: the vectorised column computation is a per-row map
(each `np.where`/arithmetic column is elementwise; the two
groupby-transform columns broadcast a per-key table sum back to each row). -/
noncomputable def calculate_dkl (df : List Row) : List OutRow :=
  df.map (augmentRow df)

theorem augmentRow_toRow (df : List Row) (r : Row) : (augmentRow df r).toRow = r := rfl

lemma maskedLog_eq_zero_of_ratio_nonpos {p q : ℝ} (h : maskedRatio p q ≤ 0) :
    maskedLog p q = 0 := by
  unfold maskedLog
  rw [if_neg (not_lt.mpr h)]

lemma maskedRatio_zero_left (q : ℝ) : maskedRatio 0 q = 0 := by
  unfold maskedRatio
  split <;> simp

lemma maskedRatio_of_nonpos {p q : ℝ} (h : q ≤ 0) : maskedRatio p q = 0 := by
  unfold maskedRatio
  rw [if_neg (not_lt.mpr h)]

lemma maskedDiv_mem_unit {a b : ℝ} (h0 : 0 ≤ a) (hab : a ≤ b) :
    0 ≤ (if b > 0 then a / b else 0) ∧ (if b > 0 then a / b else 0) ≤ 1 := by
  by_cases hb : b > 0
  · rw [if_pos hb]
    exact ⟨div_nonneg h0 hb.le, (div_le_one hb).mpr hab⟩
  · rw [if_neg hb]
    norm_num

/-- The zero-masking behaviour of the six derived columns of one output row:
a probability column is 0 whenever its denominator is 0, and a log column is
0 whenever its (masked) ratio argument is not strictly positive; when
`cbsa_total` is 0 both log columns vanish as well. -/
def MaskingSpec (o : OutRow) : Prop :=
  (o.cbsa_total = 0 → o.p_ni = 0 ∧ o.p_yj = 0 ∧ o.dkl_log_i = 0 ∧ o.dkl_log_j = 0) ∧
  (o.block_total = 0 → o.p_yj_ni = 0 ∧ o.dkl_log_i = 0) ∧
  (o.cbsa_estimate = 0 → o.p_ni_yj = 0 ∧ o.dkl_log_j = 0) ∧
  (ratio_i o.toRow ≤ 0 → o.dkl_log_i = 0) ∧
  (ratio_j o.toRow ≤ 0 → o.dkl_log_j = 0)

/-- C1: for every input row with a zero denominator (`cbsa_total`,
`block_total` or `cbsa_estimate` equal to 0), the output row of
`calculate_dkl` satisfies the masking rule: each probability column whose
denominator is 0 equals 0, and each log column whose ratio argument is not
strictly positive equals 0.  In the exact-real embedding every column is a
real number, so no NaN/Inf value can occur. -/
theorem calculate_dkl_zero_masking (df : List Row) (r : Row) (hr : r ∈ df)
    (h : r.cbsa_total = 0 ∨ r.block_total = 0 ∨ r.cbsa_estimate = 0) :
    augmentRow df r ∈ calculate_dkl df ∧ MaskingSpec (augmentRow df r) := by
  refine ⟨List.mem_map_of_mem _ hr, ?_, ?_, ?_, ?_, ?_⟩
  · intro h0
    have h1 : r.cbsa_total = 0 := h0
    have hpni : p_ni r = 0 := by simp [p_ni, h1]
    have hpyj : p_yj r = 0 := by simp [p_yj, h1]
    refine ⟨hpni, hpyj, ?_, ?_⟩
    · show dkl_log_i r = 0
      unfold dkl_log_i
      exact maskedLog_eq_zero_of_ratio_nonpos (le_of_eq (by rw [hpyj]; exact maskedRatio_of_nonpos le_rfl))
    · show dkl_log_j r = 0
      unfold dkl_log_j
      exact maskedLog_eq_zero_of_ratio_nonpos (le_of_eq (by rw [hpni]; exact maskedRatio_of_nonpos le_rfl))
  · intro h0
    have h1 : r.block_total = 0 := h0
    have hpyjni : p_yj_ni r = 0 := by simp [p_yj_ni, h1]
    refine ⟨hpyjni, ?_⟩
    show dkl_log_i r = 0
    unfold dkl_log_i
    exact maskedLog_eq_zero_of_ratio_nonpos (le_of_eq (by rw [hpyjni]; exact maskedRatio_zero_left _))
  · intro h0
    have h1 : r.cbsa_estimate = 0 := h0
    have hpniyj : p_ni_yj r = 0 := by simp [p_ni_yj, h1]
    refine ⟨hpniyj, ?_⟩
    show dkl_log_j r = 0
    unfold dkl_log_j
    exact maskedLog_eq_zero_of_ratio_nonpos (le_of_eq (by rw [hpniyj]; exact maskedRatio_zero_left _))
  · intro h0
    exact maskedLog_eq_zero_of_ratio_nonpos h0
  · intro h0
    exact maskedLog_eq_zero_of_ratio_nonpos h0

/-- A concrete row whose `cbsa_total` is 0 (metro-wide group total empty). -/
noncomputable def zeroTotalRow : Row :=
  { block_fips := "010010201001", county_fips := "01001", cbsa_fips := "33860",
    variable_ := "B19001_002", variable_group := "B19001", label := "lt10k",
    group_label := "Household Income",
    block_estimate := 1, block_total := 2, cbsa_estimate := 3, cbsa_total := 0 }

/-- Witness for C1 at a concrete row with `cbsa_total = 0`. -/
theorem calculate_dkl_zero_masking_witness :
    zeroTotalRow ∈ [zeroTotalRow] ∧ zeroTotalRow.cbsa_total = 0 ∧
    (augmentRow [zeroTotalRow] zeroTotalRow ∈ calculate_dkl [zeroTotalRow] ∧
      MaskingSpec (augmentRow [zeroTotalRow] zeroTotalRow)) :=
  ⟨by simp, rfl,
    calculate_dkl_zero_masking [zeroTotalRow] zeroTotalRow (by simp) (Or.inl rfl)⟩

/-- C10: under the data-model invariants (non-negative counts, each
numerator bounded by its denominator and each block/bin total bounded by the
metro group total), the four probability columns of every output row lie in
[0, 1]. -/
theorem probability_columns_unit_interval (df : List Row) (r : Row) (hr : r ∈ df)
    (hbe : 0 ≤ r.block_estimate) (hbt : r.block_estimate ≤ r.block_total)
    (hce : r.block_estimate ≤ r.cbsa_estimate) (hbc : r.block_total ≤ r.cbsa_total)
    (hcc : r.cbsa_estimate ≤ r.cbsa_total) :
    augmentRow df r ∈ calculate_dkl df ∧
    (0 ≤ (augmentRow df r).p_ni ∧ (augmentRow df r).p_ni ≤ 1) ∧
    (0 ≤ (augmentRow df r).p_ni_yj ∧ (augmentRow df r).p_ni_yj ≤ 1) ∧
    (0 ≤ (augmentRow df r).p_yj ∧ (augmentRow df r).p_yj ≤ 1) ∧
    (0 ≤ (augmentRow df r).p_yj_ni ∧ (augmentRow df r).p_yj_ni ≤ 1) := by
  refine ⟨List.mem_map_of_mem _ hr, ?_, ?_, ?_, ?_⟩
  · exact maskedDiv_mem_unit (hbe.trans hbt) hbc
  · exact maskedDiv_mem_unit hbe hce
  · exact maskedDiv_mem_unit (hbe.trans hce) hcc
  · exact maskedDiv_mem_unit hbe hbt

/-- A concrete row satisfying every data-model invariant. -/
noncomputable def invariantRow : Row :=
  { block_fips := "010010201001", county_fips := "01001", cbsa_fips := "33860",
    variable_ := "B19001_002", variable_group := "B19001", label := "lt10k",
    group_label := "Household Income",
    block_estimate := 1, block_total := 2, cbsa_estimate := 3, cbsa_total := 4 }

/-- Witness for C10 at a concrete row with counts 1 ≤ 2 ≤ 4 and 1 ≤ 3 ≤ 4. -/
theorem probability_columns_unit_interval_witness :
    invariantRow ∈ [invariantRow] ∧
    (augmentRow [invariantRow] invariantRow ∈ calculate_dkl [invariantRow] ∧
      (0 ≤ (augmentRow [invariantRow] invariantRow).p_ni ∧
        (augmentRow [invariantRow] invariantRow).p_ni ≤ 1) ∧
      (0 ≤ (augmentRow [invariantRow] invariantRow).p_ni_yj ∧
        (augmentRow [invariantRow] invariantRow).p_ni_yj ≤ 1) ∧
      (0 ≤ (augmentRow [invariantRow] invariantRow).p_yj ∧
        (augmentRow [invariantRow] invariantRow).p_yj ≤ 1) ∧
      (0 ≤ (augmentRow [invariantRow] invariantRow).p_yj_ni ∧
        (augmentRow [invariantRow] invariantRow).p_yj_ni ≤ 1)) :=
  ⟨by simp,
    probability_columns_unit_interval [invariantRow] invariantRow (by simp)
      (by norm_num [invariantRow]) (by norm_num [invariantRow])
      (by norm_num [invariantRow]) (by norm_num [invariantRow])
      (by norm_num [invariantRow])⟩

/-- C6: `calculate_dkl` preserves the row count, drops and adds no row, and
leaves every input column of every row unchanged (the output rows restricted
to the input schema are exactly the input rows, in order); the ten new
columns are exactly the extra fields of `OutRow`. -/
theorem calculate_dkl_row_preservation (df : List Row) :
    (calculate_dkl df).length = df.length ∧
    (calculate_dkl df).map OutRow.toRow = df := by
  refine ⟨by simp [calculate_dkl], ?_⟩
  unfold calculate_dkl
  rw [List.map_map]
  have h : OutRow.toRow ∘ augmentRow df = id := by
    funext r
    simp [augmentRow_toRow]
  rw [h, List.map_id]

lemma filter_map_comm {α β : Type} (f : α → β) (p : β → Bool) (l : List α) :
    (l.map f).filter p = (l.filter fun a => p (f a)).map f := by
  induction l with
  | nil => rfl
  | cons a t ih =>
    simp only [List.map_cons, List.filter_cons, ih]
    by_cases h : p (f a) <;> simp [h]

lemma dkl_block_congr (df : List Row) {r1 r2 : Row} (h : blockKey r1 = blockKey r2) :
    dkl_block df r1 = dkl_block df r2 := by
  unfold dkl_block
  rw [h]

lemma dkl_bin_congr (df : List Row) {r1 r2 : Row} (h : binKey r1 = binKey r2) :
    dkl_bin df r1 = dkl_bin df r2 := by
  unfold dkl_bin
  rw [h]

lemma dkl_block_as_output_sum (df : List Row) (r : Row) :
    dkl_block df r = (((calculate_dkl df).filter fun s =>
      decide (blockKey s.toRow = blockKey r)).map OutRow.dkl_block_j).sum := by
  unfold calculate_dkl
  rw [filter_map_comm, List.map_map]
  rfl

lemma dkl_bin_as_output_sum (df : List Row) (r : Row) :
    dkl_bin df r = (((calculate_dkl df).filter fun s =>
      decide (binKey s.toRow = binKey r)).map OutRow.dkl_bin_i).sum := by
  unfold calculate_dkl
  rw [filter_map_comm, List.map_map]
  rfl

/-- C3: the two broadcast aggregates of `calculate_dkl` are identical across
all output rows sharing the grouping key, and each equals the sum of the
per-row contribution column over the output rows of that group:
`dkl_block` is the sum of `dkl_block_j` over rows sharing
(`variable_group`, `block_fips`), and `dkl_bin` the sum of `dkl_bin_i` over
rows sharing (`variable_group`, `cbsa_fips`, `variable`). -/
theorem dkl_broadcast_aggregates (df : List Row) (o1 o2 : OutRow)
    (h1 : o1 ∈ calculate_dkl df) (h2 : o2 ∈ calculate_dkl df) :
    (blockKey o1.toRow = blockKey o2.toRow → o1.dkl_block = o2.dkl_block) ∧
    (binKey o1.toRow = binKey o2.toRow → o1.dkl_bin = o2.dkl_bin) ∧
    o1.dkl_block = (((calculate_dkl df).filter fun s =>
      decide (blockKey s.toRow = blockKey o1.toRow)).map OutRow.dkl_block_j).sum ∧
    o1.dkl_bin = (((calculate_dkl df).filter fun s =>
      decide (binKey s.toRow = binKey o1.toRow)).map OutRow.dkl_bin_i).sum := by
  obtain ⟨r1, _, rfl⟩ := List.mem_map.mp h1
  obtain ⟨r2, _, rfl⟩ := List.mem_map.mp h2
  refine ⟨fun hk => ?_, fun hk => ?_, ?_, ?_⟩
  · exact dkl_block_congr df hk
  · exact dkl_bin_congr df hk
  · exact dkl_block_as_output_sum df r1
  · exact dkl_bin_as_output_sum df r1

/-- Two bins of one block (same `variable_group` and `block_fips`, distinct
`variable`), each also a one-row bin group of the metro. -/
noncomputable def binOneRow : Row :=
  { block_fips := "010010201001", county_fips := "01001", cbsa_fips := "33860",
    variable_ := "B19001_002", variable_group := "B19001", label := "lt10k",
    group_label := "Household Income",
    block_estimate := 1, block_total := 3, cbsa_estimate := 1, cbsa_total := 3 }

/-- Second bin row of the same block as `binOneRow`. -/
noncomputable def binTwoRow : Row :=
  { block_fips := "010010201001", county_fips := "01001", cbsa_fips := "33860",
    variable_ := "B19001_003", variable_group := "B19001", label := "10to15k",
    group_label := "Household Income",
    block_estimate := 2, block_total := 3, cbsa_estimate := 2, cbsa_total := 3 }

/-- Witness for C3 on a concrete two-row table whose rows share a block key. -/
theorem dkl_broadcast_aggregates_witness :
    augmentRow [binOneRow, binTwoRow] binOneRow ∈ calculate_dkl [binOneRow, binTwoRow] ∧
    augmentRow [binOneRow, binTwoRow] binTwoRow ∈ calculate_dkl [binOneRow, binTwoRow] ∧
    ((blockKey (augmentRow [binOneRow, binTwoRow] binOneRow).toRow =
        blockKey (augmentRow [binOneRow, binTwoRow] binTwoRow).toRow →
      (augmentRow [binOneRow, binTwoRow] binOneRow).dkl_block =
        (augmentRow [binOneRow, binTwoRow] binTwoRow).dkl_block) ∧
    (binKey (augmentRow [binOneRow, binTwoRow] binOneRow).toRow =
        binKey (augmentRow [binOneRow, binTwoRow] binTwoRow).toRow →
      (augmentRow [binOneRow, binTwoRow] binOneRow).dkl_bin =
        (augmentRow [binOneRow, binTwoRow] binTwoRow).dkl_bin) ∧
    (augmentRow [binOneRow, binTwoRow] binOneRow).dkl_block =
      (((calculate_dkl [binOneRow, binTwoRow]).filter fun s =>
        decide (blockKey s.toRow =
          blockKey (augmentRow [binOneRow, binTwoRow] binOneRow).toRow)).map
        OutRow.dkl_block_j).sum ∧
    (augmentRow [binOneRow, binTwoRow] binOneRow).dkl_bin =
      (((calculate_dkl [binOneRow, binTwoRow]).filter fun s =>
        decide (binKey s.toRow =
          binKey (augmentRow [binOneRow, binTwoRow] binOneRow).toRow)).map
        OutRow.dkl_bin_i).sum) :=
  ⟨List.mem_map_of_mem _ (by simp), List.mem_map_of_mem _ (by simp),
    dkl_broadcast_aggregates [binOneRow, binTwoRow]
      (augmentRow [binOneRow, binTwoRow] binOneRow)
      (augmentRow [binOneRow, binTwoRow] binTwoRow)
      (List.mem_map_of_mem _ (by simp)) (List.mem_map_of_mem _ (by simp))⟩

lemma sum_map_div {α : Type} (l : List α) (f : α → ℝ) (c : ℝ) :
    (l.map fun s => f s / c).sum = (l.map f).sum / c := by
  induction l with
  | nil => simp
  | cons a t ih =>
    simp only [List.map_cons, List.sum_cons, ih]
    ring

lemma sum_map_sub_div {α : Type} (l : List α) (f g : α → ℝ) (c : ℝ) :
    (l.map fun s => (f s - g s) / c).sum = ((l.map f).sum - (l.map g).sum) / c := by
  induction l with
  | nil => simp
  | cons a t ih =>
    simp only [List.map_cons, List.sum_cons, ih]
    ring

/-- Pointwise Gibbs bound for one masked term: for weights `p ≥ 0` against
reference `q ≥ 0` with `p > 0 → q > 0`, the masked contribution
`p * log2(p/q)` is at least `(p - q) / ln 2`. -/
lemma term_lower_bound (p q : ℝ) (hp : 0 ≤ p) (hq : 0 ≤ q) (hpq : 0 < p → 0 < q) :
    (p - q) / Real.log 2 ≤ p * maskedLog p q := by
  have hlog2 : 0 < Real.log 2 := Real.log_pos (by norm_num)
  rcases eq_or_lt_of_le hp with h | h
  · rw [← h, zero_mul, zero_sub]
    exact div_nonpos_of_nonpos_of_nonneg (neg_nonpos.mpr hq) hlog2.le
  · have hq' : 0 < q := hpq h
    have hrpos : 0 < p / q := div_pos h hq'
    have hml : maskedLog p q = Real.log (p / q) / Real.log 2 := by
      unfold maskedLog maskedRatio
      rw [if_pos hq', if_pos hrpos, ← Real.log_div_log]
    have key : p - q ≤ p * Real.log (p / q) := by
      have h1 : Real.log (q / p) ≤ q / p - 1 := Real.log_le_sub_one_of_pos (div_pos hq' h)
      have h2 : Real.log (q / p) = -Real.log (p / q) := by
        rw [← Real.log_inv, inv_div]
      rw [h2] at h1
      have h3 : 1 - q / p ≤ Real.log (p / q) := by linarith
      have h4 : p * (1 - q / p) ≤ p * Real.log (p / q) :=
        mul_le_mul_of_nonneg_left h3 hp
      have h5 : p * (1 - q / p) = p - q := by
        field_simp
      linarith
    have he : p * (Real.log (p / q) / Real.log 2) = p * Real.log (p / q) / Real.log 2 := by
      ring
    rw [hml, he]
    exact (div_le_div_iff_of_pos_right hlog2).mpr key

/-- Gibbs inequality for a group of rows: if `pf` and `qf` are non-negative
on the group, `qf` is positive wherever `pf` is, and the group sum of `qf`
is at most that of `pf`, then the group sum of the masked contributions
`pf * log2(pf/qf)` is non-negative. -/
lemma sum_group_terms_nonneg (G : List Row) (pf qf : Row → ℝ)
    (h1 : ∀ s ∈ G, 0 ≤ pf s) (h2 : ∀ s ∈ G, 0 ≤ qf s)
    (h3 : ∀ s ∈ G, 0 < pf s → 0 < qf s)
    (h4 : (G.map qf).sum ≤ (G.map pf).sum) :
    0 ≤ (G.map fun s => pf s * maskedLog (pf s) (qf s)).sum := by
  have hlog2 : 0 < Real.log 2 := Real.log_pos (by norm_num)
  have step : (G.map fun s => (pf s - qf s) / Real.log 2).sum ≤
      (G.map fun s => pf s * maskedLog (pf s) (qf s)).sum :=
    List.sum_le_sum fun s hs => term_lower_bound (pf s) (qf s) (h1 s hs) (h2 s hs) (h3 s hs)
  have base : 0 ≤ (G.map fun s => (pf s - qf s) / Real.log 2).sum := by
    rw [sum_map_sub_div]
    exact div_nonneg (sub_nonneg.mpr h4) hlog2.le
  linarith

lemma p_yj_ni_eq {r : Row} (h : 0 < r.block_total) :
    p_yj_ni r = r.block_estimate / r.block_total := if_pos h

lemma p_yj_eq {r : Row} (h : 0 < r.cbsa_total) :
    p_yj r = r.cbsa_estimate / r.cbsa_total := if_pos h

lemma p_ni_eq {r : Row} (h : 0 < r.cbsa_total) :
    p_ni r = r.block_total / r.cbsa_total := if_pos h

lemma p_ni_yj_eq {r : Row} (h : 0 < r.cbsa_estimate) :
    p_ni_yj r = r.block_estimate / r.cbsa_estimate := if_pos h

/-- C8: over a group that forms consistent probability distributions —
within the row's block group the bin counts sum to `block_total` and the
metro bin totals sum to `cbsa_total`; within the row's bin group the block
counts sum to `cbsa_estimate` and the block totals sum to `cbsa_total`;
counts are non-negative and each count is bounded by its enclosing total —
both broadcast aggregates `dkl_block` and `dkl_bin` of `calculate_dkl` are
non-negative (Gibbs' inequality). -/
theorem dkl_aggregates_nonneg (df : List Row) (r : Row) (hr : r ∈ df)
    (hbt : 0 < r.block_total) (hgt : 0 < r.cbsa_total) (hct : 0 < r.cbsa_estimate)
    (hblock : ∀ s ∈ df, blockKey s = blockKey r →
      s.block_total = r.block_total ∧ s.cbsa_total = r.cbsa_total ∧
      0 ≤ s.block_estimate ∧ s.block_estimate ≤ s.cbsa_estimate)
    (hblocksum1 : ((df.filter fun s => decide (blockKey s = blockKey r)).map
      Row.block_estimate).sum = r.block_total)
    (hblocksum2 : ((df.filter fun s => decide (blockKey s = blockKey r)).map
      Row.cbsa_estimate).sum = r.cbsa_total)
    (hbin : ∀ s ∈ df, binKey s = binKey r →
      s.cbsa_estimate = r.cbsa_estimate ∧ s.cbsa_total = r.cbsa_total ∧
      0 ≤ s.block_estimate ∧ s.block_estimate ≤ s.block_total)
    (hbinsum1 : ((df.filter fun s => decide (binKey s = binKey r)).map
      Row.block_estimate).sum = r.cbsa_estimate)
    (hbinsum2 : ((df.filter fun s => decide (binKey s = binKey r)).map
      Row.block_total).sum = r.cbsa_total) :
    0 ≤ (augmentRow df r).dkl_block ∧ 0 ≤ (augmentRow df r).dkl_bin := by
  have hmemb : ∀ s ∈ df.filter (fun s => decide (blockKey s = blockKey r)),
      s ∈ df ∧ blockKey s = blockKey r := by
    intro s hs
    have h := List.mem_filter.mp hs
    exact ⟨h.1, of_decide_eq_true h.2⟩
  have hmemc : ∀ s ∈ df.filter (fun s => decide (binKey s = binKey r)),
      s ∈ df ∧ binKey s = binKey r := by
    intro s hs
    have h := List.mem_filter.mp hs
    exact ⟨h.1, of_decide_eq_true h.2⟩
  constructor
  · show 0 ≤ dkl_block df r
    have heq : dkl_block df r = ((df.filter fun s => decide (blockKey s = blockKey r)).map
        fun s => p_yj_ni s * maskedLog (p_yj_ni s) (p_yj s)).sum := rfl
    rw [heq]
    apply sum_group_terms_nonneg
    · intro s hs
      obtain ⟨hsdf, hk⟩ := hmemb s hs
      obtain ⟨e1, e2, e3, e4⟩ := hblock s hsdf hk
      rw [p_yj_ni_eq (e1 ▸ hbt)]
      exact div_nonneg e3 (e1 ▸ hbt.le)
    · intro s hs
      obtain ⟨hsdf, hk⟩ := hmemb s hs
      obtain ⟨e1, e2, e3, e4⟩ := hblock s hsdf hk
      rw [p_yj_eq (e2 ▸ hgt)]
      exact div_nonneg (e3.trans e4) (e2 ▸ hgt.le)
    · intro s hs hpos
      obtain ⟨hsdf, hk⟩ := hmemb s hs
      obtain ⟨e1, e2, e3, e4⟩ := hblock s hsdf hk
      rw [p_yj_ni_eq (e1 ▸ hbt)] at hpos
      have hbe : 0 < s.block_estimate := by
        by_contra hneg
        push_neg at hneg
        have : s.block_estimate / s.block_total ≤ 0 :=
          div_nonpos_of_nonpos_of_nonneg hneg (e1 ▸ hbt.le)
        linarith
      rw [p_yj_eq (e2 ▸ hgt)]
      exact div_pos (lt_of_lt_of_le hbe e4) (e2 ▸ hgt)
    · have hq : ((df.filter fun s => decide (blockKey s = blockKey r)).map
          fun s => p_yj s).sum = 1 := by
        have hcongr : (df.filter fun s => decide (blockKey s = blockKey r)).map
            (fun s => p_yj s) =
            (df.filter fun s => decide (blockKey s = blockKey r)).map
              (fun s => s.cbsa_estimate / r.cbsa_total) := by
          apply List.map_congr_left
          intro s hs
          obtain ⟨hsdf, hk⟩ := hmemb s hs
          obtain ⟨e1, e2, e3, e4⟩ := hblock s hsdf hk
          rw [p_yj_eq (e2 ▸ hgt), e2]
        rw [hcongr, sum_map_div, hblocksum2, div_self hgt.ne']
      have hp : ((df.filter fun s => decide (blockKey s = blockKey r)).map
          fun s => p_yj_ni s).sum = 1 := by
        have hcongr : (df.filter fun s => decide (blockKey s = blockKey r)).map
            (fun s => p_yj_ni s) =
            (df.filter fun s => decide (blockKey s = blockKey r)).map
              (fun s => s.block_estimate / r.block_total) := by
          apply List.map_congr_left
          intro s hs
          obtain ⟨hsdf, hk⟩ := hmemb s hs
          obtain ⟨e1, e2, e3, e4⟩ := hblock s hsdf hk
          rw [p_yj_ni_eq (e1 ▸ hbt), e1]
        rw [hcongr, sum_map_div, hblocksum1, div_self hbt.ne']
      rw [hq, hp]
  · show 0 ≤ dkl_bin df r
    have heq : dkl_bin df r = ((df.filter fun s => decide (binKey s = binKey r)).map
        fun s => p_ni_yj s * maskedLog (p_ni_yj s) (p_ni s)).sum := rfl
    rw [heq]
    apply sum_group_terms_nonneg
    · intro s hs
      obtain ⟨hsdf, hk⟩ := hmemc s hs
      obtain ⟨e1, e2, e3, e4⟩ := hbin s hsdf hk
      rw [p_ni_yj_eq (e1 ▸ hct)]
      exact div_nonneg e3 (e1 ▸ hct.le)
    · intro s hs
      obtain ⟨hsdf, hk⟩ := hmemc s hs
      obtain ⟨e1, e2, e3, e4⟩ := hbin s hsdf hk
      rw [p_ni_eq (e2 ▸ hgt)]
      exact div_nonneg (e3.trans e4) (e2 ▸ hgt.le)
    · intro s hs hpos
      obtain ⟨hsdf, hk⟩ := hmemc s hs
      obtain ⟨e1, e2, e3, e4⟩ := hbin s hsdf hk
      rw [p_ni_yj_eq (e1 ▸ hct)] at hpos
      have hbe : 0 < s.block_estimate := by
        by_contra hneg
        push_neg at hneg
        have : s.block_estimate / s.cbsa_estimate ≤ 0 :=
          div_nonpos_of_nonpos_of_nonneg hneg (e1 ▸ hct.le)
        linarith
      rw [p_ni_eq (e2 ▸ hgt)]
      exact div_pos (lt_of_lt_of_le hbe e4) (e2 ▸ hgt)
    · have hq : ((df.filter fun s => decide (binKey s = binKey r)).map
          fun s => p_ni s).sum = 1 := by
        have hcongr : (df.filter fun s => decide (binKey s = binKey r)).map
            (fun s => p_ni s) =
            (df.filter fun s => decide (binKey s = binKey r)).map
              (fun s => s.block_total / r.cbsa_total) := by
          apply List.map_congr_left
          intro s hs
          obtain ⟨hsdf, hk⟩ := hmemc s hs
          obtain ⟨e1, e2, e3, e4⟩ := hbin s hsdf hk
          rw [p_ni_eq (e2 ▸ hgt), e2]
        rw [hcongr, sum_map_div, hbinsum2, div_self hgt.ne']
      have hp : ((df.filter fun s => decide (binKey s = binKey r)).map
          fun s => p_ni_yj s).sum = 1 := by
        have hcongr : (df.filter fun s => decide (binKey s = binKey r)).map
            (fun s => p_ni_yj s) =
            (df.filter fun s => decide (binKey s = binKey r)).map
              (fun s => s.block_estimate / r.cbsa_estimate) := by
          apply List.map_congr_left
          intro s hs
          obtain ⟨hsdf, hk⟩ := hmemc s hs
          obtain ⟨e1, e2, e3, e4⟩ := hbin s hsdf hk
          rw [p_ni_yj_eq (e1 ▸ hct), e1]
        rw [hcongr, sum_map_div, hbinsum1, div_self hct.ne']
      rw [hq, hp]

/-- A one-row metro: the single block and single bin carry the whole
population, so every group distribution is the point mass 1. -/
noncomputable def uniformRow : Row :=
  { block_fips := "010010201001", county_fips := "01001", cbsa_fips := "33860",
    variable_ := "B19001_002", variable_group := "B19001", label := "lt10k",
    group_label := "Household Income",
    block_estimate := 1, block_total := 1, cbsa_estimate := 1, cbsa_total := 1 }

/-- Witness for C8 on the concrete one-row consistent table. -/
theorem dkl_aggregates_nonneg_witness :
    0 ≤ (augmentRow [uniformRow] uniformRow).dkl_block ∧
    0 ≤ (augmentRow [uniformRow] uniformRow).dkl_bin :=
  dkl_aggregates_nonneg [uniformRow] uniformRow (by simp) one_pos one_pos one_pos
    (by
      intro s hs hk
      rw [List.mem_singleton.mp hs]
      exact ⟨rfl, rfl, zero_le_one, le_rfl⟩)
    (by simp [uniformRow]) (by simp [uniformRow])
    (by
      intro s hs hk
      rw [List.mem_singleton.mp hs]
      exact ⟨rfl, rfl, zero_le_one, le_rfl⟩)
    (by simp [uniformRow]) (by simp [uniformRow])

/-- One input row of `get_mutual_info`: the columns the function selects
from the output of `calculate_dkl`
(`block_fips, variable_group, group_label, block_total, dkl_block, p_ni,
cbsa_title, cbsa_total, state_codes`). -/
structure MIRow where
  block_fips : String
  variable_group : String
  group_label : String
  block_total : ℝ
  dkl_block : ℝ
  p_ni : ℝ
  cbsa_title : String
  cbsa_total : ℝ
  state_codes : String

/-- One output row of `get_mutual_info`: the three groupby keys plus
`avg_dkl_cbsa_pop`. -/
structure MIOut where
  cbsa_title : String
  state_codes : String
  group_label : String
  avg_dkl_cbsa_pop : ℝ

/-- The key of `drop_duplicates(subset=["block_fips", "variable_group"])`. -/
def dedupKey (r : MIRow) : String × String := (r.block_fips, r.variable_group)

/-- The key of `groupby(["cbsa_title", "state_codes", "group_label"])`. -/
def miKey (r : MIRow) : String × String × String :=
  (r.cbsa_title, r.state_codes, r.group_label)

/-- The (metro, category) pair named by the specification: the metro
identifier (`cbsa_title` is the only metro identifier `get_mutual_info`
consumes) and the demographic category label. -/
def pairKey (r : MIRow) : String × String := (r.cbsa_title, r.group_label)

/-- `drop_duplicates(subset=["block_fips", "variable_group"])` with pandas'
default `keep="first"`: traverse in order, keeping a row only if its key was
not seen before. -/
def dropDupAux (seen : List (String × String)) : List MIRow → List MIRow
  | [] => []
  | r :: rs =>
    if dedupKey r ∈ seen then dropDupAux seen rs
    else r :: dropDupAux (dedupKey r :: seen) rs

/-- The deduplication step of `get_mutual_info` (one row kept per
(`block_fips`, `variable_group`), first occurrence wins, order preserved). -/
def dropDuplicates (l : List MIRow) : List MIRow := dropDupAux [] l

lemma dropDupAux_sublist (seen : List (String × String)) (l : List MIRow) :
    List.Sublist (dropDupAux seen l) l := by
  induction l generalizing seen with
  | nil => simp [dropDupAux]
  | cons r rs ih =>
    rw [dropDupAux]
    split
    · exact List.Sublist.cons r (ih seen)
    · exact List.Sublist.cons₂ r (ih _)

lemma dropDupAux_key_not_seen (seen : List (String × String)) (l : List MIRow) :
    ∀ s ∈ dropDupAux seen l, dedupKey s ∉ seen := by
  induction l generalizing seen with
  | nil => simp [dropDupAux]
  | cons r rs ih =>
    rw [dropDupAux]
    split
    · exact ih seen
    · intro s hs
      rcases List.mem_cons.mp hs with h | h
      · subst h
        assumption
      · intro hmem
        exact ih (dedupKey r :: seen) s h (List.mem_cons_of_mem _ hmem)

lemma dropDupAux_keys_nodup (seen : List (String × String)) (l : List MIRow) :
    ((dropDupAux seen l).map dedupKey).Nodup := by
  induction l generalizing seen with
  | nil => simp [dropDupAux]
  | cons r rs ih =>
    rw [dropDupAux]
    split
    · exact ih seen
    · simp only [List.map_cons, List.nodup_cons]
      refine ⟨?_, ih _⟩
      intro hmem
      obtain ⟨s, hs, hkey⟩ := List.mem_map.mp hmem
      apply dropDupAux_key_not_seen _ _ s hs
      rw [hkey]
      exact List.mem_cons_self _ _

lemma dropDuplicates_sublist (l : List MIRow) : List.Sublist (dropDuplicates l) l :=
  dropDupAux_sublist [] l

lemma dropDuplicates_keys_nodup (l : List MIRow) :
    ((dropDuplicates l).map dedupKey).Nodup :=
  dropDupAux_keys_nodup [] l

/-- The weighted-mean reduction applied to one group:
`Σ(dkl_block · p_ni) / Σ(p_ni)`, and 0 when the total weight is 0
(the `if total_weight == 0: return 0.0` guard of `_weighted_mean`). -/
noncomputable def weighted_mean (g : List MIRow) : ℝ :=
  if (g.map MIRow.p_ni).sum = 0 then 0
  else (g.map fun s => s.dkl_block * s.p_ni).sum / (g.map MIRow.p_ni).sum

/-- The deduplicated rows falling in the group of key `k`. -/
noncomputable def miGroup (df : List MIRow) (k : String × String × String) : List MIRow :=
  (dropDuplicates df).filter fun s => decide (miKey s = k)

/-- `get_mutual_info`: deduplicate to one row per
(`block_fips`, `variable_group`), group by
(`cbsa_title`, `state_codes`, `group_label`), and emit one row per group
carrying the weighted mean.  (pandas emits the groups sorted by key; this
model emits them in a canonical duplicate-free order — the claims under
verification are insensitive to row order.) -/
noncomputable def get_mutual_info (df : List MIRow) : List MIOut :=
  ((dropDuplicates df).map miKey).dedup.map fun k =>
    { cbsa_title := k.1, state_codes := k.2.1, group_label := k.2.2,
      avg_dkl_cbsa_pop := weighted_mean (miGroup df k) }

/-- C7 amended: the output of `get_mutual_info` has exactly one row per
distinct (`cbsa_title`, `state_codes`, `group_label`) triple among the rows
surviving the (`block_fips`, `variable_group`) deduplication.  (The claim's
"one row per (metro_id, category_group) pair" holds only when `state_codes`
is constant per metro title and no block key is shared across metros.) -/
theorem get_mutual_info_row_count (df : List MIRow) :
    (get_mutual_info df).length = ((dropDuplicates df).map miKey).toFinset.card := by
  unfold get_mutual_info
  rw [List.length_map, List.card_toFinset]

/-- A block row of metro title "Metroville" carrying state code "CA". -/
noncomputable def miRowA : MIRow :=
  { block_fips := "A", variable_group := "B19001", group_label := "Household Income",
    block_total := 1, dkl_block := 0, p_ni := 1,
    cbsa_title := "Metroville", cbsa_total := 2, state_codes := "CA" }

/-- A second block row with the same metro title and category but state
code "NV": one (metro, category) pair, two groupby keys. -/
noncomputable def miRowB : MIRow :=
  { block_fips := "B", variable_group := "B19001", group_label := "Household Income",
    block_total := 1, dkl_block := 2, p_ni := 1,
    cbsa_title := "Metroville", cbsa_total := 2, state_codes := "NV" }

/-- C7 counterexample: on a table whose two rows share the (metro,
category) pair but differ in `state_codes`, `get_mutual_info` emits two
rows while the input has a single distinct (metro_id, category_group)
pair. -/
theorem get_mutual_info_row_count_counterexample :
    (get_mutual_info [miRowA, miRowB]).length = 2 ∧
    ([miRowA, miRowB].map pairKey).toFinset.card = 1 ∧ (2 : ℕ) ≠ 1 := by
  refine ⟨?_, ?_, by norm_num⟩
  · show (((dropDuplicates [miRowA, miRowB]).map miKey).dedup.map _).length = 2
    rw [List.length_map]
    rfl
  · rfl

/-- Modelled from the spec (§4.2, steps 1-4): the summariser the claim
describes — deduplicate to one row per (block_id, category_group), group by
(metro_id, category_group) only, and take the `p_ni`-weighted mean of
`dkl_block` with the zero-total-weight rule.  It differs from
`get_mutual_info`, whose grouping key also contains `state_codes`. -/
noncomputable def get_mutual_info_spec (df : List MIRow) : List ((String × String) × ℝ) :=
  ((dropDuplicates df).map pairKey).dedup.map fun k =>
    (k, weighted_mean ((dropDuplicates df).filter fun s => decide (pairKey s = k)))

/-- C2 counterexample: on the two-row table of `miRowA`/`miRowB` the code
produces two groups (mi values 0 and 2) where the claimed grouping by
(metro_id, category_group) produces the single weighted mean 1. -/
theorem mi_grouping_counterexample :
    (get_mutual_info [miRowA, miRowB]).map
      (fun o => ((o.cbsa_title, o.group_label), o.avg_dkl_cbsa_pop)) =
      [(("Metroville", "Household Income"), 0), (("Metroville", "Household Income"), 2)] ∧
    get_mutual_info_spec [miRowA, miRowB] = [(("Metroville", "Household Income"), 1)] ∧
    (get_mutual_info [miRowA, miRowB]).map
      (fun o => ((o.cbsa_title, o.group_label), o.avg_dkl_cbsa_pop)) ≠
      get_mutual_info_spec [miRowA, miRowB] := by
  have eBA : (("B" : String) = "A") = False := by decide
  have eCN : (("CA" : String) = "NV") = False := by decide
  have eNC : (("NV" : String) = "CA") = False := by decide
  have h1 : (get_mutual_info [miRowA, miRowB]).map
      (fun o => ((o.cbsa_title, o.group_label), o.avg_dkl_cbsa_pop)) =
      [(("Metroville", "Household Income"), 0), (("Metroville", "Household Income"), 2)] := by
    norm_num [get_mutual_info, dropDuplicates, dropDupAux, dedupKey, miKey, miGroup,
      weighted_mean, miRowA, miRowB, eBA, eCN, eNC, List.dedup_cons_of_not_mem]
  have h2 : get_mutual_info_spec [miRowA, miRowB] =
      [(("Metroville", "Household Income"), 1)] := by
    norm_num [get_mutual_info_spec, dropDuplicates, dropDupAux, dedupKey, pairKey,
      weighted_mean, miRowA, miRowB, eBA, eCN, eNC, List.dedup_cons_of_mem]
  refine ⟨h1, h2, ?_⟩
  rw [h1, h2]
  simp

/-- C2 amended: `get_mutual_info` first reduces the input by deduplication
(the kept rows are a sublist of the input — no re-summation — with pairwise
distinct (`block_fips`, `variable_group`) keys), then emits, for each
distinct (`cbsa_title`, `state_codes`, `group_label`) key of the
deduplicated rows, the `p_ni`-weighted mean of `dkl_block over that group,
with mi = 0 whenever the group's total weight Σ p_ni is 0. -/
theorem get_mutual_info_weighted_mean (df : List MIRow) (o : MIOut)
    (ho : o ∈ get_mutual_info df) :
    List.Sublist (dropDuplicates df) df ∧
    ((dropDuplicates df).map dedupKey).Nodup ∧
    ∃ k ∈ ((dropDuplicates df).map miKey).dedup,
      o.cbsa_title = k.1 ∧ o.state_codes = k.2.1 ∧ o.group_label = k.2.2 ∧
      (((miGroup df k).map MIRow.p_ni).sum = 0 → o.avg_dkl_cbsa_pop = 0) ∧
      (((miGroup df k).map MIRow.p_ni).sum ≠ 0 →
        o.avg_dkl_cbsa_pop * ((miGroup df k).map MIRow.p_ni).sum =
          ((miGroup df k).map fun s => s.dkl_block * s.p_ni).sum) := by
  obtain ⟨k, hk, rfl⟩ := List.mem_map.mp ho
  refine ⟨dropDuplicates_sublist df, dropDuplicates_keys_nodup df, k, hk,
    rfl, rfl, rfl, ?_, ?_⟩
  · intro h0
    show weighted_mean (miGroup df k) = 0
    unfold weighted_mean
    rw [if_pos h0]
  · intro h0
    show weighted_mean (miGroup df k) * _ = _
    unfold weighted_mean
    rw [if_neg h0, div_mul_cancel₀ _ h0]

/-- The single output row of `get_mutual_info` on the one-row table `[miRowA]`. -/
noncomputable def miOutA : MIOut :=
  { cbsa_title := "Metroville", state_codes := "CA", group_label := "Household Income",
    avg_dkl_cbsa_pop :=
      weighted_mean (miGroup [miRowA] ("Metroville", "CA", "Household Income")) }

/-- Witness for the amended C2 on the concrete one-row table. -/
theorem get_mutual_info_weighted_mean_witness :
    miOutA ∈ get_mutual_info [miRowA] ∧
    (List.Sublist (dropDuplicates [miRowA]) [miRowA] ∧
    ((dropDuplicates [miRowA]).map dedupKey).Nodup ∧
    ∃ k ∈ ((dropDuplicates [miRowA]).map miKey).dedup,
      miOutA.cbsa_title = k.1 ∧ miOutA.state_codes = k.2.1 ∧
      miOutA.group_label = k.2.2 ∧
      (((miGroup [miRowA] k).map MIRow.p_ni).sum = 0 → miOutA.avg_dkl_cbsa_pop = 0) ∧
      (((miGroup [miRowA] k).map MIRow.p_ni).sum ≠ 0 →
        miOutA.avg_dkl_cbsa_pop * ((miGroup [miRowA] k).map MIRow.p_ni).sum =
          ((miGroup [miRowA] k).map fun s => s.dkl_block * s.p_ni).sum)) := by
  have hmem : miOutA ∈ get_mutual_info [miRowA] := List.mem_singleton.mpr rfl
  exact ⟨hmem, get_mutual_info_weighted_mean [miRowA] miOutA hmem⟩

/-- A row carrying a negative count (`block_estimate = -1`). -/
noncomputable def negRow : Row :=
  { block_fips := "010010201001", county_fips := "01001", cbsa_fips := "33860",
    variable_ := "B19001_002", variable_group := "B19001", label := "lt10k",
    group_label := "Household Income",
    block_estimate := -1, block_total := 2, cbsa_estimate := 1, cbsa_total := 4 }

/-- Modelled from the spec: "a malformed row with negative or missing
counts should be coerced to 0".  Clamps every negative count to 0 (missing
values are an IEEE-float concept with no counterpart in the exact-real
embedding; negative counts already decide the claim). -/
noncomputable def coerceRow (r : Row) : Row :=
  { r with
    block_estimate := max r.block_estimate 0
    block_total := max r.block_total 0
    cbsa_estimate := max r.cbsa_estimate 0
    cbsa_total := max r.cbsa_total 0 }

/-- The computation the claim describes: coerce offending counts to 0
before computing the probability and log columns. -/
noncomputable def calculate_dkl_coerced (df : List Row) : List OutRow :=
  calculate_dkl (df.map coerceRow)

/-- C5 counterexample: on a row with `block_estimate = -1` and
`block_total = 2`, `calculate_dkl` emits `p_yj_ni = -1/2`, while the claimed
coercion to 0 would emit 0 — the code performs no coercion. -/
theorem negative_count_not_coerced :
    (calculate_dkl [negRow]).map OutRow.p_yj_ni = [-(1 / 2)] ∧
    (calculate_dkl_coerced [negRow]).map OutRow.p_yj_ni = [0] ∧
    (-(1 / 2) : ℝ) ≠ 0 := by
  have hm1 : max (-1 : ℝ) 0 = 0 := max_eq_right (by norm_num)
  have hm2 : max (2 : ℝ) 0 = 2 := max_eq_left (by norm_num)
  refine ⟨?_, ?_, by norm_num⟩
  · norm_num [calculate_dkl, augmentRow, p_yj_ni, negRow]
  · norm_num [calculate_dkl_coerced, calculate_dkl, augmentRow, p_yj_ni, coerceRow,
      negRow, hm1, hm2]

/-- C5 amended: a row with a negative count is not rejected — the row count
is preserved and the row appears in the output — but the count is not
coerced to 0: it flows unchanged into the input columns of the output and
into the probability numerators (a probability column is forced to 0 only
when its denominator is not strictly positive). -/
theorem negative_counts_pass_through (df : List Row) (r : Row) (hr : r ∈ df) :
    augmentRow df r ∈ calculate_dkl df ∧
    (calculate_dkl df).length = df.length ∧
    (augmentRow df r).block_estimate = r.block_estimate ∧
    (augmentRow df r).block_total = r.block_total ∧
    (augmentRow df r).cbsa_estimate = r.cbsa_estimate ∧
    (augmentRow df r).cbsa_total = r.cbsa_total ∧
    (augmentRow df r).p_yj_ni =
      (if r.block_total > 0 then r.block_estimate / r.block_total else 0) ∧
    (augmentRow df r).p_ni_yj =
      (if r.cbsa_estimate > 0 then r.block_estimate / r.cbsa_estimate else 0) :=
  ⟨List.mem_map_of_mem _ hr, by simp [calculate_dkl], rfl, rfl, rfl, rfl, rfl, rfl⟩

/-- Witness for the amended C5 at the concrete negative-count row. -/
theorem negative_counts_pass_through_witness :
    negRow ∈ [negRow] ∧
    (augmentRow [negRow] negRow ∈ calculate_dkl [negRow] ∧
    (calculate_dkl [negRow]).length = [negRow].length ∧
    (augmentRow [negRow] negRow).block_estimate = negRow.block_estimate ∧
    (augmentRow [negRow] negRow).block_total = negRow.block_total ∧
    (augmentRow [negRow] negRow).cbsa_estimate = negRow.cbsa_estimate ∧
    (augmentRow [negRow] negRow).cbsa_total = negRow.cbsa_total ∧
    (augmentRow [negRow] negRow).p_yj_ni =
      (if negRow.block_total > 0 then negRow.block_estimate / negRow.block_total else 0) ∧
    (augmentRow [negRow] negRow).p_ni_yj =
      (if negRow.cbsa_estimate > 0 then negRow.block_estimate / negRow.cbsa_estimate else 0)) :=
  ⟨by simp, negative_counts_pass_through [negRow] negRow (by simp)⟩

/-- The failure modes of the pandas column machinery used by
`calculate_dkl`: a missing column raises `KeyError`; `SchemaError` is the
exception the specification names, which the code never defines or raises. -/
inductive DklError where
  | keyError (col : String)
  | schemaError
deriving DecidableEq

/-- A DataFrame together with its column index: `cols` lists the column
names present, `data` the row values read through those columns. -/
structure CTable where
  cols : List String
  data : List Row

/-- The input columns `calculate_dkl` reads, in source order: the four
count columns cast to float at lines 73-76, then the groupby key columns of
the two `transform("sum")` aggregations (lines 101 and 104). -/
def requiredCols : List String :=
  ["block_estimate", "block_total", "cbsa_estimate", "cbsa_total",
   "variable_group", "block_fips", "cbsa_fips", "variable"]

/-- `calculate_dkl` with pandas' column-lookup failure mode: the first
required column absent from the table's column index raises
`KeyError(column)`; with all columns present the computation succeeds. -/
noncomputable def calculate_dkl_checked (t : CTable) : Except DklError (List OutRow) :=
  match requiredCols.find? (fun c => decide (c ∉ t.cols)) with
  | some c => Except.error (DklError.keyError c)
  | none => Except.ok (calculate_dkl t.data)

/-- A table carrying every required column except `cbsa_total`
(`metro_group_total`). -/
def missingTotalTable : CTable :=
  { cols := ["block_fips", "county_fips", "cbsa_fips", "variable", "variable_group",
      "label", "group_label", "block_estimate", "block_total", "cbsa_estimate"],
    data := [] }

/-- C4 counterexample: on a table missing `cbsa_total`, `calculate_dkl`
raises `KeyError("cbsa_total")`, which is not a `SchemaError`. -/
theorem missing_column_schemaError_counterexample :
    calculate_dkl_checked missingTotalTable =
      Except.error (DklError.keyError "cbsa_total") ∧
    DklError.keyError "cbsa_total" ≠ DklError.schemaError := by
  exact ⟨rfl, by decide⟩

/-- C4 amended: on every table missing a required column, `calculate_dkl`
fails by raising a `KeyError` naming the first missing accessed column —
never a `SchemaError`, which the code does not define. -/
theorem missing_column_keyError (t : CTable)
    (h : ∃ c ∈ requiredCols, c ∉ t.cols) :
    ∃ c ∈ requiredCols, c ∉ t.cols ∧
      calculate_dkl_checked t = Except.error (DklError.keyError c) ∧
      calculate_dkl_checked t ≠ Except.error DklError.schemaError := by
  obtain ⟨c0, hc0, hn0⟩ := h
  have hsome : (requiredCols.find? (fun c => decide (c ∉ t.cols))).isSome := by
    rw [List.find?_isSome]
    exact ⟨c0, hc0, by simpa using hn0⟩
  obtain ⟨c, hc⟩ := Option.isSome_iff_exists.mp hsome
  have heq : calculate_dkl_checked t = Except.error (DklError.keyError c) := by
    unfold calculate_dkl_checked
    rw [hc]
  refine ⟨c, List.mem_of_find?_eq_some hc, ?_, heq, ?_⟩
  · simpa using List.find?_some hc
  · rw [heq]
    intro hcontra
    simp at hcontra

/-- Witness for the amended C4 at the concrete table missing `cbsa_total`. -/
theorem missing_column_keyError_witness :
    (∃ c ∈ requiredCols, c ∉ missingTotalTable.cols) ∧
    (∃ c ∈ requiredCols, c ∉ missingTotalTable.cols ∧
      calculate_dkl_checked missingTotalTable = Except.error (DklError.keyError c) ∧
      calculate_dkl_checked missingTotalTable ≠ Except.error DklError.schemaError) := by
  have h : ∃ c ∈ requiredCols, c ∉ missingTotalTable.cols :=
    ⟨"cbsa_total", by decide, by decide⟩
  exact ⟨h, missing_column_keyError missingTotalTable h⟩

/-- Call-frame model of `calculate_dkl`'s effect on its caller: the body
opens with `out = df.copy()` and every later statement assigns columns of
the local copy `out` only, so the caller's `df` binding is returned
unchanged next to the new table.  The pair holds (the caller's `df` after
the call, the returned table). -/
noncomputable def calculate_dkl_call (df : List Row) : List Row × List OutRow :=
  (df, calculate_dkl df)

/-- Call-frame model of `get_mutual_info`: the body selects the nine needed
columns into `block_level` with `.copy()` and aggregates that copy; the
argument table is never assigned to. -/
noncomputable def get_mutual_info_call (df : List MIRow) : List MIRow × List MIOut :=
  (df, get_mutual_info df)

/-- C9: neither core function mutates its argument: after either call the
caller's table is unchanged, and the result is a fresh table computed from
the copy. -/
theorem core_functions_pure (df : List Row) (mdf : List MIRow) :
    (calculate_dkl_call df).1 = df ∧ (calculate_dkl_call df).2 = calculate_dkl df ∧
    (get_mutual_info_call mdf).1 = mdf ∧
    (get_mutual_info_call mdf).2 = get_mutual_info mdf :=
  ⟨rfl, rfl, rfl, rfl⟩

end Dkl
